import Mathlib

/-!
# Verification of the cclp project-discovery and usage-aggregation core

Shallow embedding of the cclp CLI sources:
* `src/pricing.ts` — the cost model (`PRICING`, `calculateCost`)
* `src/cache.ts` — the statistics cache (`getCached`, `setCache`)
* `src/parser.ts` — the usage record parser (`parseProject` line aggregation)
* `src/frecency.ts` — frecency history (`recordLaunch`, `calculateFrecency`)
* `src/scanner.ts` — the path decoder (`decodePath` / `findPath`)
* `src/ui.ts`, `src/export.ts` — cost-reporting call sites

JavaScript numbers that hold token counts are modelled as `Nat`, millisecond
timestamps (`Date.now()`, `Date#getTime()`) as `Int`, and dollar amounts as
`ℚ` (the arithmetic here is exact in every run the program performs at the
scales it documents), with `Option ℚ` where a NaN result is reachable: the
`PRICING[model]` property access goes through the object's prototype chain,
so an `Object.prototype` member name selects a truthy inherited member whose
rate fields are `undefined`.  Fallible I/O is modelled with `Option`.
-/

namespace Cclp

/-! ## Cost model (src/pricing.ts) -/

/-- `TokenUsage` from src/parser.ts: four non-negative token counters. -/
structure TokenUsage where
  inputTokens : Nat
  outputTokens : Nat
  cacheCreationInputTokens : Nat
  cacheReadInputTokens : Nat
deriving DecidableEq, Repr

/-- `ModelPricing` from src/pricing.ts: per-million-token rates in USD. -/
structure ModelPricing where
  input : ℚ
  output : ℚ
  cacheWrite : ℚ
  cacheRead : ℚ
deriving DecidableEq, Repr

/-- The `PRICING` table from src/pricing.ts, as an association list in the
object-literal order. -/
def PRICING : List (String × ModelPricing) :=
  [("opus-4", ⟨15, 75, 18.75, 1.5⟩),
   ("sonnet-4", ⟨3, 15, 3.75, 0.3⟩),
   ("haiku-4", ⟨0.8, 4, 1.0, 0.08⟩)]

/-- `DEFAULT_MODEL` from src/pricing.ts. -/
def DEFAULT_MODEL : String := "sonnet-4"

/-- The member names `PRICING[model]` can reach through the prototype chain:
`PRICING` is a plain object literal, so for these identifiers the access
returns the inherited `Object.prototype` member — a truthy function (or, for
`__proto__`, the prototype object) — instead of `undefined`. -/
def objectPrototypeMembers : List String :=
  ["constructor", "hasOwnProperty", "isPrototypeOf", "propertyIsEnumerable",
   "toLocaleString", "toString", "valueOf",
   "__proto__", "__defineGetter__", "__defineSetter__", "__lookupGetter__", "__lookupSetter__"]

/-- `PRICING[model] || PRICING[DEFAULT_MODEL]` with the full JS property
semantics: `some p` when the selected value is a pricing record (an own key
of the table, or the default-model fallback when the access yields
`undefined`); `none` when a truthy inherited `Object.prototype` member is
selected, so that the `||` fallback is skipped and every rate field of the
selected "pricing" is `undefined`. -/
def pricingForJS (model : String) : Option ModelPricing :=
  match PRICING.lookup model with
  | some p => some p
  | none =>
    if model ∈ objectPrototypeMembers then none
    else PRICING.lookup DEFAULT_MODEL

/-- The pricing record selected whenever the access yields a record at all:
an own key of `PRICING`, else the `DEFAULT_MODEL` entry.  (The final `getD`
fallback is unreachable because `DEFAULT_MODEL` is a key of `PRICING`.) -/
def pricingFor (model : String) : ModelPricing :=
  ((PRICING.lookup model).orElse (fun _ => PRICING.lookup DEFAULT_MODEL)).getD ⟨0, 0, 0, 0⟩

/-- The arithmetic of `calculateCost` from src/pricing.ts at a given pricing
record: `Σ counter / 1e6 × rate`. -/
def calculateCost (usage : TokenUsage) (model : String := DEFAULT_MODEL) : ℚ :=
  let pricing := pricingFor model
  let M : ℚ := 1000000
  (usage.inputTokens : ℚ) / M * pricing.input
    + (usage.outputTokens : ℚ) / M * pricing.output
    + (usage.cacheCreationInputTokens : ℚ) / M * pricing.cacheWrite
    + (usage.cacheReadInputTokens : ℚ) / M * pricing.cacheRead

/-- `calculateCost` from src/pricing.ts with the full JS lookup semantics:
when the selected pricing is not a record (an `Object.prototype` member name
was looked up), each rate is `undefined`, every term of the sum is NaN and
the function returns NaN — modelled as `none`.  Otherwise the exact rational
result is returned. -/
def calculateCostJS (usage : TokenUsage) (model : String := DEFAULT_MODEL) : Option ℚ :=
  (pricingForJS model).map fun pricing =>
    let M : ℚ := 1000000
    (usage.inputTokens : ℚ) / M * pricing.input
      + (usage.outputTokens : ℚ) / M * pricing.output
      + (usage.cacheCreationInputTokens : ℚ) / M * pricing.cacheWrite
      + (usage.cacheReadInputTokens : ℚ) / M * pricing.cacheRead

/-- The all-zero usage record. -/
def zeroUsage : TokenUsage := ⟨0, 0, 0, 0⟩

/-- Every pricing record the own-key-or-fallback selection can produce has
non-negative rates. -/
theorem pricingFor_nonneg (model : String) :
    0 ≤ (pricingFor model).input ∧ 0 ≤ (pricingFor model).output
      ∧ 0 ≤ (pricingFor model).cacheWrite ∧ 0 ≤ (pricingFor model).cacheRead := by
  unfold pricingFor PRICING DEFAULT_MODEL
  simp only [List.lookup]
  repeat' split
  all_goals norm_num

/-- Away from the `Object.prototype` member names the JS lookup selects an
actual pricing record, namely `pricingFor model`, and the cost is the exact
rational `calculateCost` value. -/
theorem calculateCostJS_of_not_proto (u : TokenUsage) (model : String)
    (hm : model ∉ objectPrototypeMembers) :
    calculateCostJS u model = some (calculateCost u model) := by
  have hp : pricingForJS model = some (pricingFor model) := by
    unfold pricingForJS pricingFor
    match h : PRICING.lookup model with
    | some p => simp [h]
    | none => simp [h, hm, DEFAULT_MODEL, PRICING, List.lookup]
  unfold calculateCostJS calculateCost
  rw [hp, Option.map_some']

theorem calculateCost_mono (model : String) (u u' : TokenUsage)
    (h1 : u.inputTokens ≤ u'.inputTokens)
    (h2 : u.outputTokens ≤ u'.outputTokens)
    (h3 : u.cacheCreationInputTokens ≤ u'.cacheCreationInputTokens)
    (h4 : u.cacheReadInputTokens ≤ u'.cacheReadInputTokens) :
    calculateCost u model ≤ calculateCost u' model := by
  obtain ⟨p1, p2, p3, p4⟩ := pricingFor_nonneg model
  unfold calculateCost
  dsimp only
  gcongr

theorem calculateCost_zero (model : String) : calculateCost zeroUsage model = 0 := by
  simp [calculateCost, zeroUsage]

/-- C5 counterexample: at the fixed model `"constructor"` — an
`Object.prototype` member name — the selected "pricing" is the truthy
inherited member, so the program computes NaN for the all-zero usage (and
for every other usage), not the zero (and monotone) cost the claim promises. -/
theorem calculateCost_constructor_nan_counterexample :
    calculateCostJS zeroUsage "constructor" = none
      ∧ calculateCostJS zeroUsage "constructor" ≠ some 0
      ∧ calculateCostJS ⟨1, 0, 0, 0⟩ "constructor" = none := by
  refine ⟨rfl, ?_, rfl⟩
  decide

/-- C5 (amended): for every fixed model identifier that is not an
`Object.prototype` member name, the cost is a real number, non-decreasing in
each of the four token counters (stated componentwise, which subsumes
increasing one counter at a time), and exactly zero on the all-zero usage;
for a prototype member name the cost is NaN for every usage. -/
theorem calculateCost_monotone_and_zero (model : String) (u u' : TokenUsage)
    (hm : model ∉ objectPrototypeMembers)
    (h1 : u.inputTokens ≤ u'.inputTokens)
    (h2 : u.outputTokens ≤ u'.outputTokens)
    (h3 : u.cacheCreationInputTokens ≤ u'.cacheCreationInputTokens)
    (h4 : u.cacheReadInputTokens ≤ u'.cacheReadInputTokens) :
    calculateCostJS u model = some (calculateCost u model)
      ∧ calculateCostJS u' model = some (calculateCost u' model)
      ∧ calculateCost u model ≤ calculateCost u' model
      ∧ calculateCostJS zeroUsage model = some 0 :=
  ⟨calculateCostJS_of_not_proto u model hm,
   calculateCostJS_of_not_proto u' model hm,
   calculateCost_mono model u u' h1 h2 h3 h4,
   by rw [calculateCostJS_of_not_proto zeroUsage model hm, calculateCost_zero]⟩

/-- Witness for C5's amended statement at a concrete pair of usages. -/
theorem calculateCost_monotone_and_zero_witness :
    calculateCostJS ⟨100, 50, 0, 7⟩ "opus-4" = some (calculateCost ⟨100, 50, 0, 7⟩ "opus-4")
      ∧ calculateCostJS ⟨200, 50, 3, 7⟩ "opus-4" = some (calculateCost ⟨200, 50, 3, 7⟩ "opus-4")
      ∧ calculateCost ⟨100, 50, 0, 7⟩ "opus-4" ≤ calculateCost ⟨200, 50, 3, 7⟩ "opus-4"
      ∧ calculateCostJS zeroUsage "opus-4" = some 0 :=
  calculateCost_monotone_and_zero "opus-4" ⟨100, 50, 0, 7⟩ ⟨200, 50, 3, 7⟩
    (by decide) (by decide) (by decide) (by decide) (by decide)

theorem calculateCost_unknown_key (u : TokenUsage) (m : String)
    (h1 : m ≠ "opus-4") (h2 : m ≠ "sonnet-4") (h3 : m ≠ "haiku-4") :
    calculateCost u m = calculateCost u "sonnet-4" := by
  have e1 : (m == "opus-4") = false := by simpa using h1
  have e2 : (m == "sonnet-4") = false := by simpa using h2
  have e3 : (m == "haiku-4") = false := by simpa using h3
  have hp : pricingFor m = pricingFor "sonnet-4" := by
    unfold pricingFor PRICING DEFAULT_MODEL
    simp [List.lookup, e1, e2, e3]
  unfold calculateCost
  rw [hp]

/-- C8 counterexample: `"constructor"` is not a key of the pricing table,
yet `calculateCost(u, "constructor")` is NaN, not the `"sonnet-4"` value:
the truthy inherited `Object.prototype.constructor` is selected and the
`||` fallback is skipped. -/
theorem calculateCost_unknown_model_counterexample :
    ("constructor" ∉ ["opus-4", "sonnet-4", "haiku-4"])
      ∧ calculateCostJS zeroUsage "constructor" = none
      ∧ calculateCostJS zeroUsage "sonnet-4" = some 0
      ∧ calculateCostJS zeroUsage "constructor" ≠ calculateCostJS zeroUsage "sonnet-4" := by
  have hz : calculateCostJS zeroUsage "sonnet-4" = some 0 := by
    rw [calculateCostJS_of_not_proto zeroUsage "sonnet-4" (by decide), calculateCost_zero]
  refine ⟨by decide, rfl, hz, ?_⟩
  rw [hz]
  decide

/-- C8 (amended): a model identifier that is neither a key of `PRICING` nor
an `Object.prototype` member name is priced with the designated default
model's (`"sonnet-4"`) rates and the computation yields a real number; for a
prototype member name the fallback is skipped and the result is NaN. -/
theorem calculateCost_unknown_model (u : TokenUsage) (m : String)
    (h1 : m ≠ "opus-4") (h2 : m ≠ "sonnet-4") (h3 : m ≠ "haiku-4")
    (hm : m ∉ objectPrototypeMembers) :
    calculateCostJS u m = calculateCostJS u "sonnet-4"
      ∧ calculateCostJS u m = some (calculateCost u "sonnet-4") := by
  have hm' : calculateCostJS u m = some (calculateCost u m) :=
    calculateCostJS_of_not_proto u m hm
  have hs : calculateCostJS u "sonnet-4" = some (calculateCost u "sonnet-4") :=
    calculateCostJS_of_not_proto u "sonnet-4" (by decide)
  have he := calculateCost_unknown_key u m h1 h2 h3
  exact ⟨by rw [hm', hs, he], by rw [hm', he]⟩

/-- Witness for C8's amended statement at a concrete unknown model identifier. -/
theorem calculateCost_unknown_model_witness :
    calculateCostJS ⟨1000000, 2000000, 0, 0⟩ "gpt-5"
        = calculateCostJS ⟨1000000, 2000000, 0, 0⟩ "sonnet-4"
      ∧ calculateCostJS ⟨1000000, 2000000, 0, 0⟩ "gpt-5"
        = some (calculateCost ⟨1000000, 2000000, 0, 0⟩ "sonnet-4") :=
  calculateCost_unknown_model ⟨1000000, 2000000, 0, 0⟩ "gpt-5"
    (by decide) (by decide) (by decide) (by decide)

/-! ## Statistics cache (src/cache.ts)

`Date` values are modelled by their epoch-millisecond value; `toISOString`
followed by `new Date(...)` is the identity on that value, so serialization
keeps the `Option Int` timestamps. -/

/-- `Project` from src/scanner.ts. -/
structure Project where
  name : String
  path : String
  encodedPath : String
deriving DecidableEq, Repr

/-- `ProjectStats` from src/parser.ts. -/
structure ProjectStats where
  project : Project
  sessions : Nat
  firstActivity : Option Int
  lastActivity : Option Int
  usage : TokenUsage
deriving DecidableEq, Repr

/-- `SerializedStats` from src/cache.ts (timestamps serialized as ISO strings,
modelled by their millisecond value). -/
structure SerializedStats where
  project : Project
  sessions : Nat
  firstActivity : Option Int
  lastActivity : Option Int
  usage : TokenUsage
deriving DecidableEq, Repr

/-- `CacheData` from src/cache.ts: the persisted envelope. -/
structure CacheData where
  timestamp : Int
  projectsDirMtime : Int
  stats : List SerializedStats
deriving DecidableEq, Repr

/-- `CACHE_TTL_MS` from src/cache.ts. -/
def CACHE_TTL_MS : Int := 5 * 60 * 1000

/-- `serialize` from src/cache.ts. -/
def serialize (stats : List ProjectStats) : List SerializedStats :=
  stats.map fun s => ⟨s.project, s.sessions, s.firstActivity, s.lastActivity, s.usage⟩

/-- `deserialize` from src/cache.ts. -/
def deserialize (data : List SerializedStats) : List ProjectStats :=
  data.map fun s => ⟨s.project, s.sessions, s.firstActivity, s.lastActivity, s.usage⟩

/-- `getCached` from src/cache.ts.  `now` is `Date.now()`, `currentMtime` the
scan root's current modification time, `file` the parsed cache file (`none`
when missing or unreadable, which the catch turns into a miss). -/
def getCached (now : Int) (currentMtime : Int) (file : Option CacheData) :
    Option (List ProjectStats) :=
  match file with
  | none => none
  | some data =>
    if now - data.timestamp > CACHE_TTL_MS then none
    else if currentMtime ≠ data.projectsDirMtime then none
    else some (deserialize data.stats)

/-- `setCache` from src/cache.ts: the envelope written to disk. -/
def setCache (now : Int) (currentMtime : Int) (stats : List ProjectStats) : CacheData :=
  ⟨now, currentMtime, serialize stats⟩

theorem deserialize_serialize (l : List ProjectStats) : deserialize (serialize l) = l := by
  unfold serialize deserialize
  rw [List.map_map]
  exact List.map_id'' (fun s => rfl) l

/-- C2: a `setCache` immediately followed by `getCached` with the same clock
and fingerprint returns the stored collection; after strictly more than the
5-minute TTL has elapsed `getCached` misses even with an unchanged
fingerprint; and a changed fingerprint misses at every read time, in
particular within the TTL window. -/
theorem cache_store_load_ttl_mtime (stats : List ProjectStats)
    (now mtime now2 mtime2 : Int)
    (httl : now2 - now > CACHE_TTL_MS) (hmt : mtime2 ≠ mtime) :
    getCached now mtime (some (setCache now mtime stats)) = some stats
      ∧ getCached now2 mtime (some (setCache now mtime stats)) = none
      ∧ (∀ t : Int, getCached t mtime2 (some (setCache now mtime stats)) = none) := by
  refine ⟨?_, ?_, ?_⟩
  · simp [getCached, setCache, CACHE_TTL_MS, deserialize_serialize]
  · simp [getCached, setCache, httl]
  · intro t
    by_cases h : t - now > CACHE_TTL_MS
    · simp [getCached, setCache, h]
    · simp [getCached, setCache, h, hmt]

/-- Witness for C2 at a concrete stored collection and clock values. -/
theorem cache_store_load_ttl_mtime_witness :
    getCached 1000 42 (some (setCache 1000 42 [⟨⟨"p", "/p", "-p"⟩, 1, some 5, some 9, ⟨1, 2, 3, 4⟩⟩]))
        = some [⟨⟨"p", "/p", "-p"⟩, 1, some 5, some 9, ⟨1, 2, 3, 4⟩⟩]
      ∧ getCached 301001 42 (some (setCache 1000 42 [⟨⟨"p", "/p", "-p"⟩, 1, some 5, some 9, ⟨1, 2, 3, 4⟩⟩]))
        = none
      ∧ (∀ t : Int, getCached t 43 (some (setCache 1000 42 [⟨⟨"p", "/p", "-p"⟩, 1, some 5, some 9, ⟨1, 2, 3, 4⟩⟩]))
        = none) :=
  cache_store_load_ttl_mtime [⟨⟨"p", "/p", "-p"⟩, 1, some 5, some 9, ⟨1, 2, 3, 4⟩⟩]
    1000 42 301001 43 (by decide) (by decide)

/-! ## Usage record parser (src/parser.ts)

A record line is `none` when `JSON.parse` throws (the line is skipped) and
`some` of the parsed `JsonlMessage` otherwise.  Optional usage counters model
the `|| 0` defaulting; a present-and-valid `timestamp` is its millisecond
value. -/

/-- The optional token fields of `message.usage` in a record line. -/
structure UsageFields where
  input_tokens : Option Nat
  output_tokens : Option Nat
  cache_creation_input_tokens : Option Nat
  cache_read_input_tokens : Option Nat
deriving DecidableEq, Repr

/-- `JsonlMessage` from src/parser.ts (the fields `parseProject` reads). -/
structure JsonlMessage where
  timestamp : Option Int
  usage : Option UsageFields
deriving DecidableEq, Repr

/-- `if (!stats.firstActivity || ts < stats.firstActivity) stats.firstActivity = ts`. -/
def bumpFirst (fa : Option Int) (ts : Int) : Option Int :=
  match fa with
  | none => some ts
  | some f => if ts < f then some ts else some f

/-- `if (!stats.lastActivity || ts > stats.lastActivity) stats.lastActivity = ts`. -/
def bumpLast (la : Option Int) (ts : Int) : Option Int :=
  match la with
  | none => some ts
  | some l => if l < ts then some ts else some l

/-- The `stats.usage.* += usage.* || 0` block of `parseProject`. -/
def addUsage (u : TokenUsage) (f : UsageFields) : TokenUsage :=
  ⟨u.inputTokens + f.input_tokens.getD 0,
   u.outputTokens + f.output_tokens.getD 0,
   u.cacheCreationInputTokens + f.cache_creation_input_tokens.getD 0,
   u.cacheReadInputTokens + f.cache_read_input_tokens.getD 0⟩

/-- The body of `parseProject`'s per-line loop: skip a malformed line, else
update the activity bounds from `timestamp` (when present) and accumulate
`message.usage` (when present). -/
def applyLine (stats : ProjectStats) (line : Option JsonlMessage) : ProjectStats :=
  match line with
  | none => stats
  | some data =>
    { stats with
      firstActivity :=
        match data.timestamp with
        | none => stats.firstActivity
        | some ts => bumpFirst stats.firstActivity ts
      lastActivity :=
        match data.timestamp with
        | none => stats.lastActivity
        | some ts => bumpLast stats.lastActivity ts
      usage :=
        match data.usage with
        | none => stats.usage
        | some u => addUsage stats.usage u }

/-- `parseProject`'s inner loop over the lines of one record file. -/
def processLines (stats : ProjectStats) (lines : List (Option JsonlMessage)) : ProjectStats :=
  lines.foldl applyLine stats

theorem bumpFirst_eq (fa : Option Int) (ts : Int) :
    bumpFirst fa ts = some (min (fa.getD ts) ts) := by
  rcases fa with _ | f
  · simp [bumpFirst]
  · simp only [bumpFirst, Option.getD_some]
    split_ifs with h
    · simp [min_eq_right (le_of_lt h)]
    · simp [min_eq_left (le_of_not_lt h)]

theorem bumpLast_eq (la : Option Int) (ts : Int) :
    bumpLast la ts = some (max (la.getD ts) ts) := by
  rcases la with _ | l
  · simp [bumpLast]
  · simp only [bumpLast, Option.getD_some]
    split_ifs with h
    · simp [max_eq_right (le_of_lt h)]
    · simp [max_eq_left (le_of_not_lt h)]

theorem bumpFirst_comm (fa : Option Int) (a b : Int) :
    bumpFirst (bumpFirst fa a) b = bumpFirst (bumpFirst fa b) a := by
  rcases fa with _ | f <;>
    simp only [bumpFirst_eq, Option.getD_some, Option.getD_none, Option.some.injEq]
  · rw [min_self, min_self, min_comm]
  · rw [min_right_comm]

theorem bumpLast_comm (la : Option Int) (a b : Int) :
    bumpLast (bumpLast la a) b = bumpLast (bumpLast la b) a := by
  rcases la with _ | l <;>
    simp only [bumpLast_eq, Option.getD_some, Option.getD_none, Option.some.injEq]
  · rw [max_self, max_self, max_comm]
  · rw [sup_right_comm]

theorem addUsage_comm (u : TokenUsage) (a b : UsageFields) :
    addUsage (addUsage u a) b = addUsage (addUsage u b) a := by
  simp only [addUsage, TokenUsage.mk.injEq]
  omega

/-- Processing two record lines in either order produces the same statistics. -/
theorem applyLine_comm (s : ProjectStats) (a b : Option JsonlMessage) :
    applyLine (applyLine s a) b = applyLine (applyLine s b) a := by
  rcases a with _ | da <;> rcases b with _ | db <;> simp only [applyLine]
  rcases da.timestamp with _ | tsa <;> rcases db.timestamp with _ | tsb <;>
    rcases da.usage with _ | ua <;> rcases db.usage with _ | ub <;>
    simp [ProjectStats.mk.injEq, bumpFirst_comm, bumpLast_comm, addUsage_comm]

/-- C3: aggregating the same multiset of record lines in any order — in
particular with the lines split across differently-ordered files, since the
loop processes the concatenation in file order — yields the same four token
totals and the same first/last activity bounds. -/
theorem processLines_perm (s : ProjectStats) (l1 l2 : List (Option JsonlMessage))
    (h : l1.Perm l2) :
    (processLines s l1).usage = (processLines s l2).usage
      ∧ (processLines s l1).firstActivity = (processLines s l2).firstActivity
      ∧ (processLines s l1).lastActivity = (processLines s l2).lastActivity := by
  haveI : RightCommutative applyLine := ⟨fun s a b => applyLine_comm s a b⟩
  have := h.foldl_eq (f := applyLine) s
  unfold processLines
  rw [this]
  exact ⟨rfl, rfl, rfl⟩

/-- Witness for C3 on a concrete permuted pair of line lists. -/
theorem processLines_perm_witness :
    (processLines ⟨⟨"p", "/p", "-p"⟩, 2, none, none, ⟨0, 0, 0, 0⟩⟩
          [some ⟨some 10, some ⟨some 1, none, none, none⟩⟩, none,
           some ⟨some 4, some ⟨none, some 7, none, none⟩⟩]).usage
        = (processLines ⟨⟨"p", "/p", "-p"⟩, 2, none, none, ⟨0, 0, 0, 0⟩⟩
          [some ⟨some 4, some ⟨none, some 7, none, none⟩⟩,
           some ⟨some 10, some ⟨some 1, none, none, none⟩⟩, none]).usage
      ∧ (processLines ⟨⟨"p", "/p", "-p"⟩, 2, none, none, ⟨0, 0, 0, 0⟩⟩
          [some ⟨some 10, some ⟨some 1, none, none, none⟩⟩, none,
           some ⟨some 4, some ⟨none, some 7, none, none⟩⟩]).firstActivity
        = (processLines ⟨⟨"p", "/p", "-p"⟩, 2, none, none, ⟨0, 0, 0, 0⟩⟩
          [some ⟨some 4, some ⟨none, some 7, none, none⟩⟩,
           some ⟨some 10, some ⟨some 1, none, none, none⟩⟩, none]).firstActivity
      ∧ (processLines ⟨⟨"p", "/p", "-p"⟩, 2, none, none, ⟨0, 0, 0, 0⟩⟩
          [some ⟨some 10, some ⟨some 1, none, none, none⟩⟩, none,
           some ⟨some 4, some ⟨none, some 7, none, none⟩⟩]).lastActivity
        = (processLines ⟨⟨"p", "/p", "-p"⟩, 2, none, none, ⟨0, 0, 0, 0⟩⟩
          [some ⟨some 4, some ⟨none, some 7, none, none⟩⟩,
           some ⟨some 10, some ⟨some 1, none, none, none⟩⟩, none]).lastActivity :=
  processLines_perm ⟨⟨"p", "/p", "-p"⟩, 2, none, none, ⟨0, 0, 0, 0⟩⟩
    [some ⟨some 10, some ⟨some 1, none, none, none⟩⟩, none,
     some ⟨some 4, some ⟨none, some 7, none, none⟩⟩]
    [some ⟨some 4, some ⟨none, some 7, none, none⟩⟩,
     some ⟨some 10, some ⟨some 1, none, none, none⟩⟩, none]
    (by decide)

/-- One entry of the project directory: its filename (as a character list, so
the `.endsWith(".jsonl")` filter stays executable) and the outcome of
`readFile` on it: the parsed line list, or `none` when the read throws. -/
structure FileEntry where
  name : List Char
  content : Option (List (Option JsonlMessage))
deriving DecidableEq, Repr

/-- `".jsonl"` as a character list. -/
def jsonlExt : List Char := ['.', 'j', 's', 'o', 'n', 'l']

/-- The fresh all-zero statistics `parseProject` starts from. -/
def emptyProjectStats (project : Project) : ProjectStats :=
  ⟨project, 0, none, none, ⟨0, 0, 0, 0⟩⟩

/-- `parseProject`'s loop over the record files.  A file whose read throws
makes control jump to the outer catch, which swallows the error: the
statistics accumulated so far are returned and the remaining files are not
processed. -/
def processFiles (stats : ProjectStats) (files : List FileEntry) : ProjectStats :=
  match files with
  | [] => stats
  | f :: rest =>
    match f.content with
    | none => stats
    | some lines => processFiles (processLines stats lines) rest

/-- `parseProject` from src/parser.ts.  `dir` is the outcome of `readdir` on
the project directory (`none` when listing throws); `sessions` is set to the
number of `.jsonl` files before any file is read. -/
def parseProject (project : Project) (dir : Option (List FileEntry)) : ProjectStats :=
  match dir with
  | none => emptyProjectStats project
  | some files =>
    let jsonlFiles := files.filter (fun f => jsonlExt.isSuffixOf f.name)
    processFiles { emptyProjectStats project with sessions := jsonlFiles.length } jsonlFiles

/-- A concrete project directory whose second record file cannot be read:
the first file holds one valid usage record. -/
def unreadableDir : Option (List FileEntry) :=
  some
    [⟨['a'] ++ jsonlExt, some [some ⟨none, some ⟨some 5, none, none, none⟩⟩]⟩,
     ⟨['b'] ++ jsonlExt, none⟩]

/-- C4 counterexample: with one readable record file (one usage line,
`input_tokens = 5`) followed by an unreadable one, `parseProject` reports
`sessions = 2` and `inputTokens = 5` — not the zero/empty statistics the
claim promises for a project with an unreadable record file. -/
theorem parseProject_unreadable_file_counterexample :
    (parseProject ⟨"p", "/p", "-p"⟩ unreadableDir).sessions = 2
      ∧ (parseProject ⟨"p", "/p", "-p"⟩ unreadableDir).usage.inputTokens = 5
      ∧ parseProject ⟨"p", "/p", "-p"⟩ unreadableDir ≠ emptyProjectStats ⟨"p", "/p", "-p"⟩ := by
  refine ⟨rfl, rfl, ?_⟩
  decide

/-- C4 amended: a directory that cannot be listed yields the zero/empty
statistics; a record file that cannot be read stops the aggregation loop,
returning the statistics accumulated so far (with the already-computed
session count) instead of propagating a fatal error. -/
theorem parseProject_read_errors (project : Project)
    (s : ProjectStats) (f : FileEntry) (rest : List FileEntry)
    (hf : f.content = none) :
    parseProject project none = emptyProjectStats project
      ∧ processFiles s (f :: rest) = s := by
  constructor
  · rfl
  · simp [processFiles, hf]

/-- Witness for C4's amended statement at a concrete failing directory. -/
theorem parseProject_read_errors_witness :
    parseProject ⟨"p", "/p", "-p"⟩ none = emptyProjectStats ⟨"p", "/p", "-p"⟩
      ∧ processFiles ⟨⟨"p", "/p", "-p"⟩, 2, none, none, ⟨5, 0, 0, 0⟩⟩
          [⟨['b'] ++ jsonlExt, none⟩] = ⟨⟨"p", "/p", "-p"⟩, 2, none, none, ⟨5, 0, 0, 0⟩⟩ :=
  parseProject_read_errors ⟨"p", "/p", "-p"⟩
    ⟨⟨"p", "/p", "-p"⟩, 2, none, none, ⟨5, 0, 0, 0⟩⟩ ⟨['b'] ++ jsonlExt, none⟩ [] rfl

/-! ## Frecency scorer (src/frecency.ts) and picker ordering (src/ui.ts) -/

/-- `DECAY_WEIGHTS` from src/frecency.ts: index 0 = last hour, 1 = last day,
2 = last week, 3 = last month, 4 = older. -/
def DECAY_WEIGHTS : List Nat := [100, 70, 50, 30, 10]

/-- `BUCKETS_MS` from src/frecency.ts. -/
def BUCKETS_MS : List Int := [3600000, 86400000, 604800000, 2592000000]

/-- The weight one launch timestamp contributes: the loop body of
`calculateFrecency`.  `findIndex` returning `-1` becomes `findIdx?`
returning `none`, defaulted to the last bucket. -/
def launchWeight (now ts : Int) : Nat :=
  let age := now - ts
  let bucket := (BUCKETS_MS.findIdx? (fun b => decide (age < b))).getD (DECAY_WEIGHTS.length - 1)
  DECAY_WEIGHTS.getD bucket 0

/-- `calculateFrecency` from src/frecency.ts. -/
def calculateFrecency (now : Int) (timestamps : List Int) : Nat :=
  if timestamps = [] then 0
  else timestamps.foldl (fun score ts => score + launchWeight now ts) 0

/-- `recordLaunch` from src/frecency.ts, as a transition on the persisted
`launches` map (absent key = empty list): append `now` to the project's list
and keep only the last 100 entries (`slice(-100)`). -/
def recordLaunch (launches : String → List Int) (projectPath : String) (now : Int) :
    String → List Int :=
  fun q =>
    if q = projectPath then
      let l := launches projectPath ++ [now]
      if 100 < l.length then l.drop (l.length - 100) else l
    else launches q

/-- The comparator of `sortByFrecency` in src/ui.ts
(`frecencyScores[path] || 0`, then last-activity descending, null last). -/
def freCmp (frecencyScores : List (String × Nat)) (a b : ProjectStats) : Int :=
  let scoreA : Int := ((frecencyScores.lookup a.project.path).getD 0 : Nat)
  let scoreB : Int := ((frecencyScores.lookup b.project.path).getD 0 : Nat)
  if scoreA ≠ scoreB then scoreB - scoreA
  else
    match a.lastActivity, b.lastActivity with
    | none, _ => 1
    | some _, none => -1
    | some ta, some tb => tb - ta

/-- Insertion into a list ordered by a boolean comes-before test. -/
def insertCmp (le : α → α → Bool) (x : α) : List α → List α
  | [] => [x]
  | y :: ys => if le x y then x :: y :: ys else y :: insertCmp le x ys

/-- A comparator sort (insertion sort) modelling `Array.prototype.sort`:
the result is ordered by the comparator, ties keep a stable order. -/
def sortCmp (le : α → α → Bool) : List α → List α
  | [] => []
  | x :: xs => insertCmp le x (sortCmp le xs)

/-- `sortByFrecency` from src/ui.ts. -/
def sortByFrecency (stats : List ProjectStats) (frecencyScores : List (String × Nat)) :
    List ProjectStats :=
  sortCmp (fun a b => freCmp frecencyScores a b ≤ 0) stats

theorem launchWeight_hour (now ts : Int) (h : now - ts < 3600000) :
    launchWeight now ts = 100 := by
  simp [launchWeight, BUCKETS_MS, DECAY_WEIGHTS, List.findIdx?, h]

theorem launchWeight_older (now ts : Int) (h : now - ts ≥ 2592000000) :
    launchWeight now ts = 10 := by
  have h1 : ¬ now - ts < 3600000 := by omega
  have h2 : ¬ now - ts < 86400000 := by omega
  have h3 : ¬ now - ts < 604800000 := by omega
  have h4 : ¬ now - ts < 2592000000 := by omega
  simp [launchWeight, BUCKETS_MS, DECAY_WEIGHTS, List.findIdx?, h1, h2, h3, h4]

theorem foldl_const_weight (now : Int) (w : Nat) :
    ∀ (ts : List Int), (∀ t ∈ ts, launchWeight now t = w) →
      ∀ init : Nat, ts.foldl (fun score t => score + launchWeight now t) init
        = init + ts.length * w := by
  intro ts
  induction ts with
  | nil => intro _ init; simp
  | cons t rest ih =>
    intro h init
    have ht := h t (by simp)
    have := ih (fun x hx => h x (by simp [hx])) (init + launchWeight now t)
    rw [ht] at this
    simp only [List.foldl_cons, ht, this, List.length_cons]
    ring

theorem sortCmp_pair (le : α → α → Bool) (a b : α) :
    sortCmp le [a, b] = if le a b then [a, b] else [b, a] := by
  simp [sortCmp, insertCmp]

theorem freCmp_of_score_lt (scores : List (String × Nat)) (a b : ProjectStats)
    (h : (scores.lookup b.project.path).getD 0 < (scores.lookup a.project.path).getD 0) :
    freCmp scores a b ≤ 0 ∧ ¬ freCmp scores b a ≤ 0 := by
  have hlt : ((scores.lookup b.project.path).getD 0 : Int)
      < ((scores.lookup a.project.path).getD 0 : Nat) := by exact_mod_cast h
  constructor
  · simp only [freCmp]
    rw [if_pos (by omega)]
    omega
  · simp only [freCmp]
    rw [if_pos (by omega)]
    omega

theorem freCmp_zero_scores (scores : List (String × Nat)) (a b : ProjectStats)
    (hza : (scores.lookup a.project.path).getD 0 = 0)
    (hzb : (scores.lookup b.project.path).getD 0 = 0) :
    freCmp scores a b =
      (match a.lastActivity, b.lastActivity with
       | none, _ => (1 : Int)
       | some _, none => -1
       | some ta, some tb => tb - ta) := by
  simp only [freCmp, hza, hzb]
  rw [if_neg (by simp)]

/-- C7: (i) with the same number of launch events, a project whose events all
fall in the last-hour band strictly outscores one whose events all fall in
the "older" band, and `sortByFrecency` puts the higher-scoring project first
in either input order; (ii) an empty history scores zero, and two zero-scoring
projects are ordered by last-activity descending, with a project lacking any
activity timestamp sorted last. -/
theorem frecency_ranking (now : Int) (ts1 ts2 : List Int)
    (scoresR scoresZ : List (String × Nat)) (aR bR a1 b1 a2 b2 : ProjectStats)
    (ta tb tc : Int)
    (hlen : ts1.length = ts2.length) (hne : ts1 ≠ [])
    (hts1 : ∀ t ∈ ts1, now - t < 3600000)
    (hts2 : ∀ t ∈ ts2, 2592000000 ≤ now - t)
    (hsR : (scoresR.lookup bR.project.path).getD 0 < (scoresR.lookup aR.project.path).getD 0)
    (hz1a : (scoresZ.lookup a1.project.path).getD 0 = 0)
    (hz1b : (scoresZ.lookup b1.project.path).getD 0 = 0)
    (hz2a : (scoresZ.lookup a2.project.path).getD 0 = 0)
    (hz2b : (scoresZ.lookup b2.project.path).getD 0 = 0)
    (ha1 : a1.lastActivity = some ta) (hb1 : b1.lastActivity = some tb) (htab : tb < ta)
    (ha2 : a2.lastActivity = some tc) (hb2 : b2.lastActivity = none) :
    calculateFrecency now ts2 < calculateFrecency now ts1
      ∧ calculateFrecency now [] = 0
      ∧ sortByFrecency [aR, bR] scoresR = [aR, bR]
      ∧ sortByFrecency [bR, aR] scoresR = [aR, bR]
      ∧ sortByFrecency [a1, b1] scoresZ = [a1, b1]
      ∧ sortByFrecency [b1, a1] scoresZ = [a1, b1]
      ∧ sortByFrecency [a2, b2] scoresZ = [a2, b2]
      ∧ sortByFrecency [b2, a2] scoresZ = [a2, b2] := by
  have hne2 : ts2 ≠ [] := by
    intro h
    apply hne
    rw [h] at hlen
    exact List.length_eq_zero.mp hlen
  have hs1 : calculateFrecency now ts1 = ts1.length * 100 := by
    rw [calculateFrecency, if_neg hne]
    simpa using foldl_const_weight now 100 ts1 (fun t ht => launchWeight_hour now t (hts1 t ht)) 0
  have hs2 : calculateFrecency now ts2 = ts2.length * 10 := by
    rw [calculateFrecency, if_neg hne2]
    simpa using foldl_const_weight now 10 ts2 (fun t ht => launchWeight_older now t (hts2 t ht)) 0
  have hpos : 0 < ts1.length := List.length_pos.mpr hne
  obtain ⟨hR1, hR2⟩ := freCmp_of_score_lt scoresR aR bR hsR
  have h1ab : freCmp scoresZ a1 b1 ≤ 0 := by
    rw [freCmp_zero_scores scoresZ a1 b1 hz1a hz1b, ha1, hb1]
    dsimp only
    omega
  have h1ba : ¬ freCmp scoresZ b1 a1 ≤ 0 := by
    rw [freCmp_zero_scores scoresZ b1 a1 hz1b hz1a, hb1, ha1]
    dsimp only
    omega
  have h2ab : freCmp scoresZ a2 b2 ≤ 0 := by
    rw [freCmp_zero_scores scoresZ a2 b2 hz2a hz2b, ha2, hb2]
    dsimp only
    omega
  have h2ba : ¬ freCmp scoresZ b2 a2 ≤ 0 := by
    rw [freCmp_zero_scores scoresZ b2 a2 hz2b hz2a, hb2, ha2]
    dsimp only
    omega
  refine ⟨?_, rfl, ?_, ?_, ?_, ?_, ?_, ?_⟩
  · rw [hs1, hs2, ← hlen]
    omega
  · rw [sortByFrecency, sortCmp_pair, if_pos (by simpa using hR1)]
  · rw [sortByFrecency, sortCmp_pair, if_neg (by simpa using hR2)]
  · rw [sortByFrecency, sortCmp_pair, if_pos (by simpa using h1ab)]
  · rw [sortByFrecency, sortCmp_pair, if_neg (by simpa using h1ba)]
  · rw [sortByFrecency, sortCmp_pair, if_pos (by simpa using h2ab)]
  · rw [sortByFrecency, sortCmp_pair, if_neg (by simpa using h2ba)]

/-- Concrete projects used by the C7 witness. -/
def wA : ProjectStats := ⟨⟨"A", "/A", "-A"⟩, 0, none, some 99, ⟨0, 0, 0, 0⟩⟩

def wB : ProjectStats := ⟨⟨"B", "/B", "-B"⟩, 0, none, some 50, ⟨0, 0, 0, 0⟩⟩

def wa1 : ProjectStats := ⟨⟨"C", "/C", "-C"⟩, 0, none, some 10, ⟨0, 0, 0, 0⟩⟩

def wb1 : ProjectStats := ⟨⟨"D", "/D", "-D"⟩, 0, none, some 5, ⟨0, 0, 0, 0⟩⟩

def wa2 : ProjectStats := ⟨⟨"E", "/E", "-E"⟩, 0, none, some 3, ⟨0, 0, 0, 0⟩⟩

def wb2 : ProjectStats := ⟨⟨"F", "/F", "-F"⟩, 0, none, none, ⟨0, 0, 0, 0⟩⟩

/-- Witness for C7 at concrete histories, scores and projects. -/
theorem frecency_ranking_witness :
    calculateFrecency 3000000000 [0] < calculateFrecency 3000000000 [2999999999]
      ∧ calculateFrecency 3000000000 [] = 0
      ∧ sortByFrecency [wA, wB] [("/A", 5), ("/B", 1)] = [wA, wB]
      ∧ sortByFrecency [wB, wA] [("/A", 5), ("/B", 1)] = [wA, wB]
      ∧ sortByFrecency [wa1, wb1] [] = [wa1, wb1]
      ∧ sortByFrecency [wb1, wa1] [] = [wa1, wb1]
      ∧ sortByFrecency [wa2, wb2] [] = [wa2, wb2]
      ∧ sortByFrecency [wb2, wa2] [] = [wa2, wb2] :=
  frecency_ranking 3000000000 [2999999999] [0] [("/A", 5), ("/B", 1)] []
    wA wB wa1 wb1 wa2 wb2 10 5 3
    rfl (by decide) (by decide) (by decide) (by decide)
    (by decide) (by decide) (by decide) (by decide)
    rfl rfl (by decide) rfl rfl

/-- C9: `recordLaunch` leaves every project's history at length at most 100
when it was so before (the touched project unconditionally so), stores for
the touched project a suffix of its old history with the new timestamp
appended — i.e. the most recent recorded timestamps, ending in `now` — and
leaves every other project's history unchanged. -/
theorem recordLaunch_caps_history (launches : String → List Int) (p : String) (now : Int)
    (hinv : ∀ q, (launches q).length ≤ 100) :
    (∀ q, ((recordLaunch launches p now) q).length ≤ 100)
      ∧ List.IsSuffix (recordLaunch launches p now p) (launches p ++ [now])
      ∧ (recordLaunch launches p now p).getLast? = some now
      ∧ (∀ q, q ≠ p → recordLaunch launches p now q = launches q) := by
  have htouch : recordLaunch launches p now p =
      (let l := launches p ++ [now]
       if 100 < l.length then l.drop (l.length - 100) else l) := by
    simp [recordLaunch]
  refine ⟨?_, ?_, ?_, ?_⟩
  · intro q
    by_cases hq : q = p
    · subst hq
      rw [htouch]
      dsimp only
      split_ifs with h <;>
        simp only [List.length_drop, List.length_append, List.length_cons,
          List.length_nil] at h ⊢ <;>
        omega
    · simp [recordLaunch, hq, hinv q]
  · rw [htouch]
    dsimp only
    split_ifs with h
    · exact List.drop_suffix _ _
    · exact List.suffix_refl _
  · rw [htouch]
    dsimp only
    split_ifs with h
    · have hle : (launches p ++ [now]).length - 100 ≤ (launches p).length := by
        simp only [List.length_append, List.length_cons, List.length_nil]
        omega
      rw [List.drop_append_of_le_length hle]
      simp
    · simp
  · intro q hq
    simp [recordLaunch, hq]

/-- Witness for C9 at a concrete history map. -/
theorem recordLaunch_caps_history_witness :
    (∀ q, ((recordLaunch (fun _ => [1, 2, 3]) "/p" 7) q).length ≤ 100)
      ∧ List.IsSuffix (recordLaunch (fun _ => [1, 2, 3]) "/p" 7 "/p") ([1, 2, 3] ++ [7])
      ∧ (recordLaunch (fun _ => [1, 2, 3]) "/p" 7 "/p").getLast? = some 7
      ∧ (∀ q, q ≠ "/p" → recordLaunch (fun _ => [1, 2, 3]) "/p" 7 q = [1, 2, 3]) :=
  recordLaunch_caps_history (fun _ => [1, 2, 3]) "/p" 7 (fun _ => by simp)

/-! ## Path decoder (src/scanner.ts)

Strings are modelled as character lists, and a filesystem path as the list of
its segments: the code builds `currentPath + "/" + segment` starting from
`""`, and since segments never contain `/` that string determines the segment
list and conversely.  `fs` models the `exists` probe (which paths `stat`
succeeds on).  The nested `findPath` takes a fuel argument bounding the
recursion depth; every recursive call consumes at least one part, so the
initial fuel `parts.length + 1` is never exhausted and the model computes
exactly what the unbounded recursion computes. -/

/-- The candidate loop `for (let end = idx + 1; end <= parts.length; end++)`
of `findPath`: `segmentParts` is `parts.slice(idx, end)` (always non-empty),
`rest` the parts after `end`.  For each grouping, first try the parts joined
with hyphens, then — for multi-part groupings — joined with underscores,
recursing via `next` into the first candidate that exists on disk; extend the
grouping by one part when both fail. -/
def tryGroups (fs : List (List Char) → Bool)
    (next : List (List Char) → List (List Char) → Option (List (List Char))) :
    List (List Char) → List (List Char) → List (List Char) → Option (List (List Char))
  | segmentParts, rest, currentPath =>
    let hyphenSegment := List.intercalate ['-'] segmentParts
    let hyphenTry :=
      if fs (currentPath ++ [hyphenSegment]) then next rest (currentPath ++ [hyphenSegment])
      else none
    match hyphenTry with
    | some r => some r
    | none =>
      let underscoreTry :=
        if 1 < segmentParts.length then
          let underscoreSegment := List.intercalate ['_'] segmentParts
          if fs (currentPath ++ [underscoreSegment]) then
            next rest (currentPath ++ [underscoreSegment])
          else none
        else none
      match underscoreTry with
      | some r => some r
      | none =>
        match rest with
        | [] => none
        | q :: rest2 => tryGroups fs next (segmentParts ++ [q]) rest2 currentPath

/-- `findPath` from src/scanner.ts (`decodePath`'s recursive search), with
the remaining parts `parts.slice(idx)` in place of the index `idx`. -/
def findPath (fs : List (List Char) → Bool) :
    Nat → List (List Char) → List (List Char) → Option (List (List Char))
  | 0, _, _ => none
  | _ + 1, [], currentPath => if fs currentPath then some currentPath else none
  | fuel + 1, p :: rest, currentPath => tryGroups fs (findPath fs fuel) [p] rest currentPath

/-- The core of `decodePath` after splitting: search from the root over the
part list. -/
def decodeParts (fs : List (List Char) → Bool) (parts : List (List Char)) :
    Option (List (List Char)) :=
  findPath fs (parts.length + 1) parts []

/-- `decodePath` from src/scanner.ts: drop the leading `-`, split on `-`,
search the filesystem. -/
def decodePath (fs : List (List Char) → Bool) (encoded : List Char) :
    Option (List (List Char)) :=
  decodeParts fs ((encoded.drop 1).splitOn '-')

/-- The encoding this decoder reverses: path separators replaced by hyphens,
producing a leading-hyphen name. -/
def encodePath (segments : List (List Char)) : List Char :=
  '-' :: List.intercalate ['-'] segments

theorem intercalate_single (sep x : List Char) : List.intercalate sep [x] = x := by
  simp [List.intercalate]

/-- When the hyphen-joined grouping exists and the recursion through it
succeeds, `tryGroups` returns that result (the first candidate tried wins). -/
theorem tryGroups_hyphen_first (fs : List (List Char) → Bool)
    (next : List (List Char) → List (List Char) → Option (List (List Char)))
    (grp rest currentPath r : List (List Char))
    (hfs : fs (currentPath ++ [List.intercalate ['-'] grp]) = true)
    (hnext : next rest (currentPath ++ [List.intercalate ['-'] grp]) = some r) :
    tryGroups fs next grp rest currentPath = some r := by
  rw [tryGroups.eq_def]
  dsimp only
  rw [hfs, hnext]
  simp

/-- Wherever every prefix of the remaining parts exists on disk as its own
segment, the one-part-per-segment decoding is what `findPath` returns: at
every position the shortest grouping is tried first and recursed into. -/
theorem findPath_singles (fs : List (List Char) → Bool) :
    ∀ (rest currentPath : List (List Char)) (fuel : Nat),
      rest.length + 1 ≤ fuel →
      fs currentPath = true →
      (∀ k, 0 < k → k ≤ rest.length → fs (currentPath ++ rest.take k) = true) →
      findPath fs fuel rest currentPath = some (currentPath ++ rest) := by
  intro rest
  induction rest with
  | nil =>
    intro c fuel hfuel hcur _
    obtain ⟨f, rfl⟩ : ∃ f, fuel = f + 1 := ⟨fuel - 1, by omega⟩
    simp [findPath, hcur]
  | cons p rest ih =>
    intro c fuel hfuel hcur hpre
    obtain ⟨f, rfl⟩ : ∃ f, fuel = f + 1 := ⟨fuel - 1, by omega⟩
    have hp : fs (c ++ [p]) = true := by
      have := hpre 1 (by omega) (by simp)
      simpa using this
    have hnext : findPath fs f rest (c ++ [p]) = some ((c ++ [p]) ++ rest) := by
      apply ih
      · simp only [List.length_cons] at hfuel
        omega
      · exact hp
      · intro k hk hk2
        have := hpre (k + 1) (by omega) (by simpa using hk2)
        simpa [List.append_assoc] using this
    have hshape : findPath fs (f + 1) (p :: rest) c = tryGroups fs (findPath fs f) [p] rest c := by
      simp [findPath]
    have happ : (c ++ [p]) ++ rest = c ++ (p :: rest) := by simp
    rw [hshape, tryGroups_hyphen_first fs (findPath fs f) [p] rest c ((c ++ [p]) ++ rest)
      (by rw [intercalate_single]; exact hp)
      (by rw [intercalate_single]; exact hnext), happ]

/-- The one-part-per-segment decoding succeeds from the root whenever every
non-empty prefix of the part list exists on disk. -/
theorem decodeParts_singles (fs : List (List Char) → Bool) (parts : List (List Char))
    (hne : parts ≠ [])
    (hpre : ∀ k, 0 < k → k ≤ parts.length → fs (parts.take k) = true) :
    decodeParts fs parts = some parts := by
  obtain ⟨p, rest, rfl⟩ : ∃ p rest, parts = p :: rest := by
    cases parts with
    | nil => exact absurd rfl hne
    | cons p rest => exact ⟨p, rest, rfl⟩
  have hp : fs [p] = true := by
    have := hpre 1 (by omega) (by simp)
    simpa using this
  have hnext : findPath fs (rest.length + 1) rest [p] = some ([p] ++ rest) := by
    apply findPath_singles
    · omega
    · exact hp
    · intro k hk hk2
      have := hpre (k + 1) (by omega) (by simpa using hk2)
      simpa using this
  have hshape : decodeParts fs (p :: rest) =
      tryGroups fs (findPath fs (rest.length + 1)) [p] rest [] := by
    simp [decodeParts, findPath]
  rw [hshape, tryGroups_hyphen_first fs (findPath fs (rest.length + 1)) [p] rest []
    ([p] ++ rest)
    (by rw [intercalate_single]; simpa using hp)
    (by rw [intercalate_single]; simpa using hnext)]
  simp

/-- A concrete filesystem on which both the longer-segment decoding `/a-b`
and the shorter-segment decoding `/a/b` of `-a-b` exist. -/
def fsC1 : List (List Char) → Bool := fun p =>
  decide (p = [['a']] ∨ p = [['a'], ['b']] ∨ p = [['a', '-', 'b']])

/-- C1 counterexample: on `fsC1` both decodings of `-a-b` exist on disk, yet
`decodePath` returns the shorter-segment decoding `/a/b`, not the
longer-segment `/a-b` the claim promises. -/
theorem decodePath_longest_counterexample :
    fsC1 [['a', '-', 'b']] = true
      ∧ fsC1 [['a']] = true ∧ fsC1 [['a'], ['b']] = true
      ∧ decodePath fsC1 ['-', 'a', '-', 'b'] = some [['a'], ['b']]
      ∧ decodePath fsC1 ['-', 'a', '-', 'b'] ≠ some [['a', '-', 'b']] := by
  decide

/-- A concrete filesystem on which both the hyphen-joined `/a-b` and the
underscore-joined `/a_b` exist. -/
def fsHy : List (List Char) → Bool := fun p =>
  decide (p = [['a', '-', 'b']] ∨ p = [['a', '_', 'b']])

/-- C1 (amended): the decoder tries contiguous part groupings
shortest-to-longest and recurses into the first grouping that exists on
disk — so whenever the one-part-per-segment (shortest) decoding exists at
every step it is returned, whatever longer-segment decodings also exist —
and within a grouping the original hyphen join is tried before the
underscore join (on `fsHy`, where both exist, the hyphen path is returned). -/
theorem decodePath_shortest_first (fs : List (List Char) → Bool) (parts : List (List Char))
    (hne : parts ≠ [])
    (hpre : ∀ k, 0 < k → k ≤ parts.length → fs (parts.take k) = true) :
    decodeParts fs parts = some parts
      ∧ decodePath fsHy ['-', 'a', '-', 'b'] = some [['a', '-', 'b']] :=
  ⟨decodeParts_singles fs parts hne hpre, by decide⟩

/-- Witness for C1's amended statement on the `fsC1` filesystem. -/
theorem decodePath_shortest_first_witness :
    decodeParts fsC1 [['a'], ['b']] = some [['a'], ['b']]
      ∧ decodePath fsHy ['-', 'a', '-', 'b'] = some [['a', '-', 'b']] :=
  decodePath_shortest_first fsC1 [['a'], ['b']] (by decide)
    (fun k hk hk2 => by
      have hk12 : k = 1 ∨ k = 2 := by
        simp only [List.length_cons, List.length_nil] at hk2
        omega
      rcases hk12 with rfl | rfl <;> decide)

/-- A concrete filesystem holding the path `/a/b` and its prefix. -/
def fsC6 : List (List Char) → Bool := fun p =>
  decide (p = [['a']] ∨ p = [['a'], ['b']])

/-- C6: a real path whose segments contain no hyphen (so that every prefix
of the path exists on disk), once encoded by replacing separators with
hyphens into a leading-hyphen name, is decoded back to exactly itself. -/
theorem encode_decode_roundtrip (fs : List (List Char) → Bool)
    (segments : List (List Char))
    (hne : segments ≠ [])
    (hdash : ∀ s ∈ segments, '-' ∉ s)
    (hpre : ∀ k, 0 < k → k ≤ segments.length → fs (segments.take k) = true) :
    decodePath fs (encodePath segments) = some segments := by
  have hsplit : ((encodePath segments).drop 1).splitOn '-' = segments := by
    show (List.intercalate ['-'] segments).splitOn '-' = segments
    exact List.splitOn_intercalate segments '-' hdash hne
  rw [decodePath, hsplit]
  exact decodeParts_singles fs segments hne hpre

/-- Witness for C6 on the `fsC6` filesystem and the path `/a/b`. -/
theorem encode_decode_roundtrip_witness :
    decodePath fsC6 (encodePath [['a'], ['b']]) = some [['a'], ['b']] :=
  encode_decode_roundtrip fsC6 [['a'], ['b']] (by decide) (by decide)
    (fun k hk hk2 => by
      have hk12 : k = 1 ∨ k = 2 := by
        simp only [List.length_cons, List.length_nil] at hk2
        omega
      rcases hk12 with rfl | rfl <;> decide)

/-! ## Cost-reporting call sites (src/ui.ts, src/export.ts)

Every call site passes `s.usage` alone to `calculateCost`, so the default
model parameter applies; the `message.model` string a record carries is used
only for display text, never for pricing. -/

/-- The `reduce` accumulator of `showStats` in src/ui.ts restricted to the
four token counters (the `sessions` sum plays no role in cost). -/
def statsTotals (stats : List ProjectStats) : TokenUsage :=
  stats.foldl
    (fun acc s =>
      ⟨acc.inputTokens + s.usage.inputTokens,
       acc.outputTokens + s.usage.outputTokens,
       acc.cacheCreationInputTokens + s.usage.cacheCreationInputTokens,
       acc.cacheReadInputTokens + s.usage.cacheReadInputTokens⟩)
    ⟨0, 0, 0, 0⟩

/-- `showStats`'s `totalCost = calculateCost(totals)` — no model argument. -/
def showStatsTotalCost (stats : List ProjectStats) : ℚ :=
  calculateCost (statsTotals stats)

/-- `ExportRow` from src/export.ts. -/
structure ExportRow where
  name : String
  path : String
  sessions : Nat
  firstActivity : Option Int
  lastActivity : Option Int
  inputTokens : Nat
  outputTokens : Nat
  cacheCreationTokens : Nat
  cacheReadTokens : Nat
  totalTokens : Nat
  estimatedCost : ℚ
deriving DecidableEq, Repr

/-- `toExportRow` from src/export.ts (`estimatedCost: calculateCost(s.usage)`). -/
def toExportRow (s : ProjectStats) : ExportRow :=
  ⟨s.project.name, s.project.path, s.sessions, s.firstActivity, s.lastActivity,
   s.usage.inputTokens, s.usage.outputTokens, s.usage.cacheCreationInputTokens,
   s.usage.cacheReadInputTokens, s.usage.inputTokens + s.usage.outputTokens,
   calculateCost s.usage⟩

/-- The per-choice `cost = calculateCost(s.usage)` of `showPicker`, read off
the frecency-sorted rows. -/
def showPickerCosts (stats : List ProjectStats) (frecencyScores : List (String × Nat)) :
    List ℚ :=
  (sortByFrecency stats frecencyScores).map (fun s => calculateCost s.usage)

/-- `showTable`'s last-activity-descending comparator (nulls last). -/
def lastActivityCmp (a b : ProjectStats) : Int :=
  match a.lastActivity, b.lastActivity with
  | none, _ => 1
  | some _, none => -1
  | some ta, some tb => tb - ta

/-- The per-row `cost = calculateCost(s.usage)` of `showTable`. -/
def showTableCosts (stats : List ProjectStats) : List ℚ :=
  (sortCmp (fun a b => lastActivityCmp a b ≤ 0) stats).map
    (fun s => calculateCost s.usage)

/-- C10: the costs the picker, the table, the stats summary and the export
rows report are all computed at the default model's (`"sonnet-4"`) rates;
no call site threads a record's model identifier into the cost. -/
theorem reported_costs_use_default_model (stats : List ProjectStats) (s : ProjectStats)
    (frecencyScores : List (String × Nat)) :
    (toExportRow s).estimatedCost = calculateCost s.usage "sonnet-4"
      ∧ showStatsTotalCost stats = calculateCost (statsTotals stats) "sonnet-4"
      ∧ showPickerCosts stats frecencyScores
          = (sortByFrecency stats frecencyScores).map (fun t => calculateCost t.usage "sonnet-4")
      ∧ showTableCosts stats
          = (sortCmp (fun a b => lastActivityCmp a b ≤ 0) stats).map
              (fun t => calculateCost t.usage "sonnet-4") :=
  ⟨rfl, rfl, rfl, rfl⟩

end Cclp
